import Mathlib

/-!
Verification of the in-memory knowledge-graph fact store in `runGraph.py`.

The store is backed by `networkx.DiGraph`, a *simple* directed graph.  We
embed the relevant part of `DiGraph` faithfully:

* `_node` (the node set) is an insertion-ordered list of distinct strings;
* `_succ` / `_pred` (the adjacency dictionaries) are insertion-ordered
  association lists mapping a node to its insertion-ordered adjacency list,
  which maps a neighbour to the edge-attribute `relation` (the single string
  attribute ever set by this program).

Python dicts preserve insertion order: assigning to an existing key keeps
its position and replaces the value; assigning to a fresh key appends.
`DiGraph.add_edge(u, v, relation=r)` on an existing edge (u, v) therefore
*overwrites* the stored relation (a `DiGraph` is not a multigraph), which
is the behaviour this development tracks.
-/

namespace RunGraph

/-- A fact triple in the Python argument order of `add_fact`:
`(subject, relation, object)`. -/
abbrev Fact := String × String × String

/-- Dictionary lookup in an insertion-ordered association list. -/
def lookupA {β : Type} : List (String × β) → String → Option β
  | [], _ => none
  | (k', v) :: rest, k => if k' = k then some v else lookupA rest k

/-- Dictionary assignment `d[k] = v` in an insertion-ordered association
list: an existing key keeps its position and gets the new value, a fresh
key is appended at the end (CPython dict semantics). -/
def updA {β : Type} : List (String × β) → String → β → List (String × β)
  | [], k, v => [(k, v)]
  | (k', v') :: rest, k, v =>
    if k' = k then (k, v) :: rest else (k', v') :: updA rest k v

/-- Apply `f` to the value stored at key `k`, treating an absent key as
holding the default `d` (and appending it): this is
`m[k] = f(m.get(k, d))` on a Python dict. -/
def modA {β : Type} (d : β) : List (String × β) → String → (β → β) → List (String × β)
  | [], k, f => [(k, f d)]
  | (k', v') :: rest, k, f =>
    if k' = k then (k, f v') :: rest else (k', v') :: modA d rest k f

/-- The state of `KnowledgeGraph`: the `networkx.DiGraph` internals that
this program touches.  `succ.lookup u` is the outgoing adjacency of `u`
(pairs `(object, relation)` in insertion order), `pred.lookup v` the
incoming adjacency of `v` (pairs `(subject, relation)`). -/
structure KnowledgeGraph where
  nodes : List String
  succ : List (String × List (String × String))
  pred : List (String × List (String × String))
deriving Repr, DecidableEq

/-- `KnowledgeGraph.__init__`: an empty `DiGraph`. -/
def KnowledgeGraph.empty : KnowledgeGraph := ⟨[], [], []⟩

/-- `DiGraph.add_node(n)`: a no-op when `n` is already a node, otherwise
`n` is appended to the node dict and gets empty adjacency entries. -/
def add_node (g : KnowledgeGraph) (n : String) : KnowledgeGraph :=
  if g.nodes.contains n then g
  else ⟨g.nodes ++ [n], g.succ ++ [(n, [])], g.pred ++ [(n, [])]⟩

/-- `DiGraph.add_edge(u, v, relation=rel)`: missing endpoints are added,
then the shared edge-attribute dict is written through both indexes:
`_succ[u][v] = {relation: rel}` and `_pred[v][u] = {relation: rel}`.
On an existing edge this overwrites the stored relation in place. -/
def add_edge (g : KnowledgeGraph) (u v rel : String) : KnowledgeGraph :=
  let g1 := add_node (add_node g u) v
  ⟨g1.nodes, modA [] g1.succ u (fun a => updA a v rel),
    modA [] g1.pred v (fun a => updA a u rel)⟩

/-- `KnowledgeGraph.add_fact(subject, relation, obj)`:
`add_node(subject); add_node(obj); add_edge(subject, obj, relation=relation)`. -/
def add_fact (g : KnowledgeGraph) (subject relation obj : String) : KnowledgeGraph :=
  add_edge (add_node (add_node g subject) obj) subject obj relation

/-- `KnowledgeGraph.query_fact(subject, relation)`: `[]` when `subject` is
not a node, otherwise the targets of the outgoing edges of `subject` whose
`relation` attribute equals `relation`, in adjacency insertion order. -/
def query_fact (g : KnowledgeGraph) (subject relation : String) : List String :=
  if g.nodes.contains subject then
    (((lookupA g.succ subject).getD []).filter (fun p => p.2 = relation)).map (·.1)
  else []

/-- `KnowledgeGraph.query_fact_reverse(obj, relation)`: `[]` when `obj` is
not a node, otherwise the sources of the incoming edges of `obj` whose
`relation` attribute equals `relation`, in adjacency insertion order. -/
def query_fact_reverse (g : KnowledgeGraph) (obj relation : String) : List String :=
  if g.nodes.contains obj then
    (((lookupA g.pred obj).getD []).filter (fun p => p.2 = relation)).map (·.1)
  else []

/-- `KnowledgeGraph.display_facts()`: one line `"{subject} {rel} {obj}"`
per stored edge, iterating `G.edges(data=True)` (outer loop over `_succ`
in node insertion order, inner loop over each adjacency in edge insertion
order).  Every edge of this program carries a `relation` attribute, so
`data.get('relation', 'is_related_to')` always yields it. -/
def display_facts (g : KnowledgeGraph) : List String :=
  g.succ.flatMap (fun p => p.2.map (fun e => p.1 ++ " " ++ e.2 ++ " " ++ e.1))

/-- Fold a list of `(subject, relation, object)` triples into the store
with `add_fact`, in order: an arbitrary sequence of `AddFact` calls. -/
def addFacts (g : KnowledgeGraph) (fs : List Fact) : KnowledgeGraph :=
  fs.foldl (fun g f => add_fact g f.1 f.2.1 f.2.2) g

/-- The `relation` attribute stored on the edge `u → v` in the outgoing
index (`G[u][v]['relation']`), or `none` when the edge is absent. -/
def succRel (g : KnowledgeGraph) (u v : String) : Option String :=
  lookupA ((lookupA g.succ u).getD []) v

/-- The `relation` attribute of the edge `u → v` as recorded in the
incoming index (`G.pred[v][u]['relation']`). -/
def predRel (g : KnowledgeGraph) (u v : String) : Option String :=
  lookupA ((lookupA g.pred v).getD []) u

/-- The `DiGraph` representation invariant maintained by `networkx`:
adjacency keys are nodes, dictionary keys are distinct, and the outgoing
and incoming indexes record the same edges with the same attributes. -/
structure WF (g : KnowledgeGraph) : Prop where
  succ_sub : ∀ p ∈ g.succ, p.1 ∈ g.nodes
  pred_sub : ∀ p ∈ g.pred, p.1 ∈ g.nodes
  succ_keys : (g.succ.map Prod.fst).Nodup
  pred_keys : (g.pred.map Prod.fst).Nodup
  succ_adj : ∀ p ∈ g.succ, (p.2.map Prod.fst).Nodup
  pred_adj : ∀ p ∈ g.pred, (p.2.map Prod.fst).Nodup
  mirror : ∀ u v, succRel g u v = predRel g u v

/-- Left-biased choice on optional relations. -/
def oor : Option String → Option String → Option String
  | some r, _ => some r
  | none, b => b

/-- The relation of the most recent fact in `fs` with subject `u` and
object `v` (`none` when there is no such fact).  Because `DiGraph.add_edge`
overwrites the attributes of an existing edge, this is the relation the
store ends up holding on the edge `u → v`. -/
def lastRel : List Fact → String → String → Option String
  | [], _, _ => none
  | f :: rest, u, v =>
    oor (lastRel rest u v) (if f.1 = u ∧ f.2.2 = v then some f.2.1 else none)

/-- The `(subject, object)` pairs of the stored edges, one per edge, in
the iteration order of `display_facts`. -/
def edgePairs (g : KnowledgeGraph) : List (String × String) :=
  g.succ.flatMap (fun p => p.2.map (fun e => (p.1, e.1)))

/-- Spec-side definition, following the spec's words for `QueryForward`:
"the multiset of objects `o` such that `(s,r,o)` was added", in insertion
order.  Used only to compare the spec's description with the code. -/
def specForward (fs : List Fact) (s r : String) : List String :=
  (fs.filter (fun f => f.1 == s && f.2.1 == r)).map (fun f => f.2.2)

/-! ### The JSON query adapter (`process_query_json`)

The claims about the adapter concern the dispatch that follows a
successful `json.loads`.  We embed the decoded request object through the
four string fields the adapter reads; `query.get(k)` yields `none` for an
absent key. -/

/-- A decoded request object, as read via `query.get(...)`. -/
structure Query where
  queryType : Option String
  subject : Option String
  object : Option String
  relation : Option String

/-- A serialized response of `process_query_json`: either
`{"response": [...]}` or `{"error": ...}`. -/
inductive QueryResponse where
  | response : List String → QueryResponse
  | error : String → QueryResponse
deriving Repr, DecidableEq

/-- The Python truthiness test `not x` applied to a `query.get` result:
true for an absent field (`None`) and for the empty string. -/
def isFalsy : Option String → Bool
  | none => true
  | some s => s = ""

/-- `process_query_json` after a successful `json.loads`: dispatch on
`queryType`, reject falsy required fields, otherwise run the query.  The
embedding is a total function: every branch returns a structured response,
so the adapter cannot raise. -/
def process_query (q : Query) (kg : KnowledgeGraph) : QueryResponse :=
  if q.queryType = some "retrieve_fact" then
    if isFalsy q.subject || isFalsy q.relation then
      QueryResponse.error "For a forward query, 'subject' and 'relation' are required."
    else
      QueryResponse.response (query_fact kg (q.subject.getD "") (q.relation.getD ""))
  else if q.queryType = some "retrieve_fact_reverse" then
    if isFalsy q.object || isFalsy q.relation then
      QueryResponse.error "For a reverse query, 'object' and 'relation' are required."
    else
      QueryResponse.response
        (query_fact_reverse kg (q.object.getD "") (q.relation.getD ""))
  else
    QueryResponse.error "Unsupported queryType provided."

/-! ### State-passing forms of the read-only operations

The bodies of `query_fact`, `query_fact_reverse` and `display_facts`
contain no statement that assigns to `self.graph` (they only call the
read-only `networkx` accessors `__contains__`, `out_edges`, `in_edges`
and `edges`), so their state-passing embeddings return the store next to
the result. -/

/-- `query_fact` with the store threaded through each return site. -/
def query_fact_run (g : KnowledgeGraph) (subject relation : String) :
    List String × KnowledgeGraph :=
  if g.nodes.contains subject then
    ((((lookupA g.succ subject).getD []).filter
        (fun p => p.2 = relation)).map (·.1), g)
  else ([], g)

/-- `query_fact_reverse` with the store threaded through each return site. -/
def query_fact_reverse_run (g : KnowledgeGraph) (obj relation : String) :
    List String × KnowledgeGraph :=
  if g.nodes.contains obj then
    ((((lookupA g.pred obj).getD []).filter
        (fun p => p.2 = relation)).map (·.1), g)
  else ([], g)

/-- `display_facts` with the store threaded through. -/
def display_facts_run (g : KnowledgeGraph) : List String × KnowledgeGraph :=
  (g.succ.flatMap (fun p => p.2.map (fun e => p.1 ++ " " ++ e.2 ++ " " ++ e.1)), g)

/-! ### Association-list lemmas -/

theorem lookupA_append {β : Type} (l : List (String × β)) (n : String) (b : β)
    (k : String) :
    lookupA (l ++ [(n, b)]) k =
      match lookupA l k with
      | some v => some v
      | none => if n = k then some b else none := by
  induction l with
  | nil => simp [lookupA]
  | cons p rest ih =>
    obtain ⟨k', v'⟩ := p
    simp only [List.cons_append, lookupA]
    split <;> simp [ih]

theorem lookupA_updA {β : Type} (l : List (String × β)) (k : String) (v : β)
    (k' : String) :
    lookupA (updA l k v) k' = if k = k' then some v else lookupA l k' := by
  induction l with
  | nil =>
    simp only [updA, lookupA]
  | cons p rest ih =>
    obtain ⟨a, b⟩ := p
    simp only [updA]
    by_cases hak : a = k
    · subst hak
      simp only [if_pos rfl, lookupA]
      by_cases h : a = k' <;> simp [h]
    · simp only [if_neg hak, lookupA, ih]
      by_cases hak' : a = k'
      · subst hak'
        have hka : ¬ k = a := fun h => hak h.symm
        simp [hka]
      · simp [hak']

theorem lookupA_modA {β : Type} (d : β) (m : List (String × β)) (k : String)
    (f : β → β) (k' : String) :
    lookupA (modA d m k f) k' =
      if k = k' then some (f ((lookupA m k).getD d)) else lookupA m k' := by
  induction m with
  | nil =>
    simp [modA, lookupA]
  | cons p rest ih =>
    obtain ⟨a, b⟩ := p
    simp only [modA]
    by_cases hak : a = k
    · subst hak
      simp only [if_pos rfl, lookupA, Option.getD_some]
      by_cases h : a = k' <;> simp [h]
    · simp only [if_neg hak, lookupA, ih]
      by_cases hak' : a = k'
      · subst hak'
        have hka : ¬ k = a := fun h => hak h.symm
        simp [hka]
      · simp [hak']

theorem lookupA_eq_none_iff {β : Type} (l : List (String × β)) (k : String) :
    lookupA l k = none ↔ k ∉ l.map Prod.fst := by
  induction l with
  | nil => simp [lookupA]
  | cons p rest ih =>
    obtain ⟨a, b⟩ := p
    by_cases hak : a = k
    · subst hak
      simp [lookupA]
    · simp [lookupA, hak, ih, Ne.symm hak]

theorem mem_of_lookupA {β : Type} {l : List (String × β)} {k : String} {v : β}
    (h : lookupA l k = some v) : (k, v) ∈ l := by
  induction l with
  | nil => simp [lookupA] at h
  | cons p rest ih =>
    obtain ⟨a, b⟩ := p
    simp only [lookupA] at h
    by_cases hak : a = k
    · rw [if_pos hak] at h
      injection h with hbv
      subst hak
      subst hbv
      exact List.mem_cons_self _ _
    · rw [if_neg hak] at h
      exact List.mem_cons_of_mem _ (ih h)

theorem lookupA_eq_some_iff_mem {β : Type} {l : List (String × β)} {k : String}
    {v : β} (hnd : (l.map Prod.fst).Nodup) :
    lookupA l k = some v ↔ (k, v) ∈ l := by
  constructor
  · exact mem_of_lookupA
  · intro hmem
    induction l with
    | nil => simp at hmem
    | cons p rest ih =>
      obtain ⟨a, b⟩ := p
      simp only [List.map_cons, List.nodup_cons] at hnd
      rcases List.mem_cons.mp hmem with heq | htail
      · cases heq
        simp [lookupA]
      · have hak : a ≠ k := by
          intro h
          exact hnd.1 (h ▸ List.mem_map_of_mem Prod.fst htail)
        simp only [lookupA, if_neg hak]
        exact ih hnd.2 htail

theorem keys_updA {β : Type} (l : List (String × β)) (k : String) (v : β) :
    (updA l k v).map Prod.fst =
      if k ∈ l.map Prod.fst then l.map Prod.fst else l.map Prod.fst ++ [k] := by
  induction l with
  | nil => simp [updA]
  | cons p rest ih =>
    obtain ⟨a, b⟩ := p
    simp only [updA, List.map_cons, List.mem_cons]
    by_cases hak : a = k
    · subst hak
      simp
    · have hka : ¬ k = a := fun h => hak h.symm
      simp only [if_neg hak, List.map_cons, ih, hka, false_or]
      by_cases hk : k ∈ rest.map Prod.fst <;> simp [hk, hka]

theorem keys_modA {β : Type} (d : β) (m : List (String × β)) (k : String)
    (f : β → β) :
    (modA d m k f).map Prod.fst =
      if k ∈ m.map Prod.fst then m.map Prod.fst else m.map Prod.fst ++ [k] := by
  induction m with
  | nil => simp [modA]
  | cons p rest ih =>
    obtain ⟨a, b⟩ := p
    simp only [modA, List.map_cons, List.mem_cons]
    by_cases hak : a = k
    · subst hak
      simp
    · have hka : ¬ k = a := fun h => hak h.symm
      simp only [if_neg hak, List.map_cons, ih, hka, false_or]
      by_cases hk : k ∈ rest.map Prod.fst <;> simp [hk, hka]

theorem nodup_keys_updA {β : Type} {l : List (String × β)} {k : String} {v : β}
    (hnd : (l.map Prod.fst).Nodup) : ((updA l k v).map Prod.fst).Nodup := by
  rw [keys_updA]
  by_cases hk : k ∈ l.map Prod.fst
  · simpa [hk] using hnd
  · rw [if_neg hk, List.nodup_append]
    refine ⟨hnd, List.nodup_singleton _, ?_⟩
    intro x hx hxk
    rw [List.mem_singleton] at hxk
    subst hxk
    exact hk hx

theorem nodup_keys_modA {β : Type} {d : β} {m : List (String × β)} {k : String}
    {f : β → β} (hnd : (m.map Prod.fst).Nodup) :
    ((modA d m k f).map Prod.fst).Nodup := by
  rw [keys_modA]
  by_cases hk : k ∈ m.map Prod.fst
  · simpa [hk] using hnd
  · rw [if_neg hk, List.nodup_append]
    refine ⟨hnd, List.nodup_singleton _, ?_⟩
    intro x hx hxk
    rw [List.mem_singleton] at hxk
    subst hxk
    exact hk hx

theorem mem_updA {β : Type} {l : List (String × β)} {k : String} {v : β}
    {p : String × β} (h : p ∈ updA l k v) : p ∈ l ∨ p = (k, v) := by
  induction l with
  | nil => simpa [updA] using h
  | cons q rest ih =>
    obtain ⟨a, b⟩ := q
    simp only [updA] at h
    by_cases hak : a = k
    · rw [if_pos hak] at h
      rcases List.mem_cons.mp h with heq | htail
      · exact Or.inr heq
      · exact Or.inl (List.mem_cons_of_mem _ htail)
    · rw [if_neg hak] at h
      rcases List.mem_cons.mp h with heq | htail
      · exact Or.inl (heq ▸ List.mem_cons_self _ _)
      · rcases ih htail with hl | hr
        · exact Or.inl (List.mem_cons_of_mem _ hl)
        · exact Or.inr hr

theorem mem_modA {β : Type} {d : β} {m : List (String × β)} {k : String}
    {f : β → β} {p : String × β} (h : p ∈ modA d m k f) :
    p ∈ m ∨ p = (k, f ((lookupA m k).getD d)) := by
  induction m with
  | nil => simpa [modA, lookupA] using h
  | cons q rest ih =>
    obtain ⟨a, b⟩ := q
    simp only [modA] at h
    by_cases hak : a = k
    · rw [if_pos hak] at h
      subst hak
      rcases List.mem_cons.mp h with heq | htail
      · refine Or.inr ?_
        simp [heq, lookupA]
      · exact Or.inl (List.mem_cons_of_mem _ htail)
    · rw [if_neg hak] at h
      rcases List.mem_cons.mp h with heq | htail
      · exact Or.inl (heq ▸ List.mem_cons_self _ _)
      · rcases ih htail with hl | hr
        · exact Or.inl (List.mem_cons_of_mem _ hl)
        · refine Or.inr ?_
          simpa [lookupA, hak] using hr

/-! ### The edge-attribute view of the graph -/

theorem succRel_add_node (g : KnowledgeGraph) (n u v : String) :
    succRel (add_node g n) u v = succRel g u v := by
  unfold add_node succRel
  split
  · rfl
  · simp only [lookupA_append]
    rcases h : lookupA g.succ u with _ | adj
    · by_cases hnu : n = u <;> simp [hnu, lookupA]
    · simp

theorem predRel_add_node (g : KnowledgeGraph) (n u v : String) :
    predRel (add_node g n) u v = predRel g u v := by
  unfold add_node predRel
  split
  · rfl
  · simp only [lookupA_append]
    rcases h : lookupA g.pred v with _ | adj
    · by_cases hnv : n = v <;> simp [hnv, lookupA]
    · simp

theorem mem_nodes_add_node (g : KnowledgeGraph) (n x : String) :
    x ∈ (add_node g n).nodes ↔ x = n ∨ x ∈ g.nodes := by
  unfold add_node
  split
  · rename_i h
    rw [List.elem_iff] at h
    constructor
    · exact Or.inr
    · rintro (rfl | hx)
      · exact h
      · exact hx
  · simp [List.mem_append, or_comm]

theorem nodes_add_edge (g : KnowledgeGraph) (u v rel : String) :
    (add_edge g u v rel).nodes = (add_node (add_node g u) v).nodes := rfl

theorem mem_nodes_add_fact (g : KnowledgeGraph) (s r o x : String) :
    x ∈ (add_fact g s r o).nodes ↔ x = s ∨ x = o ∨ x ∈ g.nodes := by
  unfold add_fact
  rw [nodes_add_edge]
  simp only [mem_nodes_add_node]
  tauto

theorem succRel_add_fact (g : KnowledgeGraph) (s r o u v : String) :
    succRel (add_fact g s r o) u v =
      if u = s ∧ v = o then some r else succRel g u v := by
  have hbase :
      succRel (add_node (add_node (add_node (add_node g s) o) s) o) u v =
        succRel g u v := by
    simp only [succRel_add_node]
  unfold add_fact add_edge
  simp only [succRel] at hbase ⊢
  rw [lookupA_modA]
  by_cases hus : s = u
  · subst hus
    rw [if_pos rfl]
    simp only [Option.getD_some]
    rw [lookupA_updA]
    by_cases hvo : o = v
    · subst hvo
      simp
    · rw [if_neg hvo, if_neg (fun h => hvo h.2.symm)]
      exact hbase
  · rw [if_neg hus, if_neg (fun h => hus h.1.symm)]
    exact hbase

theorem predRel_add_fact (g : KnowledgeGraph) (s r o u v : String) :
    predRel (add_fact g s r o) u v =
      if u = s ∧ v = o then some r else predRel g u v := by
  have hbase :
      predRel (add_node (add_node (add_node (add_node g s) o) s) o) u v =
        predRel g u v := by
    simp only [predRel_add_node]
  unfold add_fact add_edge
  simp only [predRel] at hbase ⊢
  rw [lookupA_modA]
  by_cases hvo : o = v
  · subst hvo
    rw [if_pos rfl]
    simp only [Option.getD_some]
    rw [lookupA_updA]
    by_cases hus : s = u
    · subst hus
      simp
    · rw [if_neg hus, if_neg (fun h => hus h.1.symm)]
      exact hbase
  · rw [if_neg hvo, if_neg (fun h => hvo h.2.symm)]
    exact hbase

/-! ### Well-formedness invariant of the `DiGraph` internals -/

theorem wf_empty : WF KnowledgeGraph.empty := by
  constructor <;> simp [KnowledgeGraph.empty, succRel, predRel, lookupA]

theorem wf_add_node {g : KnowledgeGraph} (hwf : WF g) (n : String) :
    WF (add_node g n) := by
  unfold add_node
  split
  · exact hwf
  · rename_i hn
    rw [List.elem_iff] at hn
    constructor
    · intro p hp
      rcases List.mem_append.mp hp with hl | hr
      · exact List.mem_append_left _ (hwf.succ_sub p hl)
      · simp only [List.mem_singleton] at hr
        subst hr
        simp
    · intro p hp
      rcases List.mem_append.mp hp with hl | hr
      · exact List.mem_append_left _ (hwf.pred_sub p hl)
      · simp only [List.mem_singleton] at hr
        subst hr
        simp
    · rw [List.map_append, List.nodup_append]
      refine ⟨hwf.succ_keys, by simp, ?_⟩
      intro x hx hxn
      simp only [List.map_cons, List.map_nil, List.mem_singleton] at hxn
      subst hxn
      obtain ⟨p, hp, hpx⟩ := List.exists_of_mem_map hx
      exact hn (hpx ▸ hwf.succ_sub p hp)
    · rw [List.map_append, List.nodup_append]
      refine ⟨hwf.pred_keys, by simp, ?_⟩
      intro x hx hxn
      simp only [List.map_cons, List.map_nil, List.mem_singleton] at hxn
      subst hxn
      obtain ⟨p, hp, hpx⟩ := List.exists_of_mem_map hx
      exact hn (hpx ▸ hwf.pred_sub p hp)
    · intro p hp
      rcases List.mem_append.mp hp with hl | hr
      · exact hwf.succ_adj p hl
      · simp only [List.mem_singleton] at hr
        subst hr
        simp
    · intro p hp
      rcases List.mem_append.mp hp with hl | hr
      · exact hwf.pred_adj p hl
      · simp only [List.mem_singleton] at hr
        subst hr
        simp
    · intro u v
      have hs := succRel_add_node g n u v
      have hp := predRel_add_node g n u v
      unfold add_node at hs hp
      rw [if_neg (by simpa [List.elem_iff] using hn)] at hs hp
      rw [hs, hp]
      exact hwf.mirror u v

theorem nodes_add_fact (g : KnowledgeGraph) (s r o : String) :
    (add_fact g s r o).nodes =
      (add_node (add_node (add_node (add_node g s) o) s) o).nodes := rfl

theorem succ_add_fact (g : KnowledgeGraph) (s r o : String) :
    (add_fact g s r o).succ =
      modA [] (add_node (add_node (add_node (add_node g s) o) s) o).succ s
        (fun a => updA a o r) := rfl

theorem pred_add_fact (g : KnowledgeGraph) (s r o : String) :
    (add_fact g s r o).pred =
      modA [] (add_node (add_node (add_node (add_node g s) o) s) o).pred o
        (fun a => updA a s r) := rfl

theorem wf_add_fact {g : KnowledgeGraph} (hwf : WF g) (s r o : String) :
    WF (add_fact g s r o) := by
  have hG1 : WF (add_node (add_node (add_node (add_node g s) o) s) o) :=
    wf_add_node (wf_add_node (wf_add_node (wf_add_node hwf s) o) s) o
  have hsmem : s ∈ (add_node (add_node (add_node (add_node g s) o) s) o).nodes := by
    simp [mem_nodes_add_node]
  have homem : o ∈ (add_node (add_node (add_node (add_node g s) o) s) o).nodes := by
    simp [mem_nodes_add_node]
  refine ⟨?_, ?_, ?_, ?_, ?_, ?_, ?_⟩
  · intro p hp
    rw [succ_add_fact] at hp
    rw [nodes_add_fact]
    rcases mem_modA hp with hl | hr
    · exact hG1.succ_sub p hl
    · rw [hr]
      exact hsmem
  · intro p hp
    rw [pred_add_fact] at hp
    rw [nodes_add_fact]
    rcases mem_modA hp with hl | hr
    · exact hG1.pred_sub p hl
    · rw [hr]
      exact homem
  · rw [succ_add_fact]
    exact nodup_keys_modA hG1.succ_keys
  · rw [pred_add_fact]
    exact nodup_keys_modA hG1.pred_keys
  · intro p hp
    rw [succ_add_fact] at hp
    rcases mem_modA hp with hl | hr
    · exact hG1.succ_adj p hl
    · rw [hr]
      rcases hl : lookupA (add_node (add_node (add_node (add_node g s) o) s) o).succ s
        with _ | adj
      · simp only [Option.getD_none]
        exact nodup_keys_updA (by simp)
      · simp only [Option.getD_some]
        exact nodup_keys_updA (hG1.succ_adj _ (mem_of_lookupA hl))
  · intro p hp
    rw [pred_add_fact] at hp
    rcases mem_modA hp with hl | hr
    · exact hG1.pred_adj p hl
    · rw [hr]
      rcases hl : lookupA (add_node (add_node (add_node (add_node g s) o) s) o).pred o
        with _ | adj
      · simp only [Option.getD_none]
        exact nodup_keys_updA (by simp)
      · simp only [Option.getD_some]
        exact nodup_keys_updA (hG1.pred_adj _ (mem_of_lookupA hl))
  · intro u v
    rw [succRel_add_fact, predRel_add_fact]
    split
    · rfl
    · exact hwf.mirror u v

/-! ### Behaviour of a whole sequence of `add_fact` calls -/

theorem addFacts_nil (g : KnowledgeGraph) : addFacts g [] = g := rfl

theorem addFacts_cons (g : KnowledgeGraph) (f : Fact) (fs : List Fact) :
    addFacts g (f :: fs) = addFacts (add_fact g f.1 f.2.1 f.2.2) fs := rfl

theorem wf_addFacts {g : KnowledgeGraph} (hwf : WF g) (fs : List Fact) :
    WF (addFacts g fs) := by
  induction fs generalizing g with
  | nil => exact hwf
  | cons f rest ih =>
    rw [addFacts_cons]
    exact ih (wf_add_fact hwf f.1 f.2.1 f.2.2)

theorem mem_nodes_addFacts (g : KnowledgeGraph) (fs : List Fact) (x : String) :
    x ∈ (addFacts g fs).nodes ↔ x ∈ g.nodes ∨ ∃ f ∈ fs, f.1 = x ∨ f.2.2 = x := by
  induction fs generalizing g with
  | nil => simp [addFacts_nil]
  | cons f rest ih =>
    rw [addFacts_cons, ih, mem_nodes_add_fact]
    simp only [List.mem_cons]
    constructor
    · rintro ((rfl | rfl | hg) | ⟨f', hf', hx⟩)
      · exact Or.inr ⟨f, Or.inl rfl, Or.inl rfl⟩
      · exact Or.inr ⟨f, Or.inl rfl, Or.inr rfl⟩
      · exact Or.inl hg
      · exact Or.inr ⟨f', Or.inr hf', hx⟩
    · rintro (hg | ⟨f', (rfl | hf'), hx⟩)
      · exact Or.inl (Or.inr (Or.inr hg))
      · rcases hx with rfl | rfl
        · exact Or.inl (Or.inl rfl)
        · exact Or.inl (Or.inr (Or.inl rfl))
      · exact Or.inr ⟨f', hf', hx⟩

theorem succRel_addFacts (g : KnowledgeGraph) (fs : List Fact) (u v : String) :
    succRel (addFacts g fs) u v = oor (lastRel fs u v) (succRel g u v) := by
  induction fs generalizing g with
  | nil => simp [addFacts_nil, lastRel, oor]
  | cons f rest ih =>
    rw [addFacts_cons, ih, succRel_add_fact]
    simp only [lastRel]
    rcases lastRel rest u v with _ | r'
    · simp only [oor]
      by_cases h : u = f.1 ∧ v = f.2.2
      · rw [if_pos h, if_pos ⟨h.1.symm, h.2.symm⟩]
      · rw [if_neg h, if_neg (fun hc => h ⟨hc.1.symm, hc.2.symm⟩)]
    · simp [oor]

theorem lastRel_eq_none_iff (fs : List Fact) (u v : String) :
    lastRel fs u v = none ↔ ∀ r, (u, r, v) ∉ fs := by
  induction fs with
  | nil => simp [lastRel]
  | cons f rest ih =>
    simp only [lastRel]
    rcases h : lastRel rest u v with _ | r'
    · have hrest : ∀ r, (u, r, v) ∉ rest := ih.mp h
      simp only [oor]
      constructor
      · intro hnone r hmem
        rcases List.mem_cons.mp hmem with heq | htail
        · have h1 : f.1 = u := by rw [← heq]
          have h2 : f.2.2 = v := by rw [← heq]
          rw [if_pos ⟨h1, h2⟩] at hnone
          cases hnone
        · exact hrest r htail
      · intro hall
        rw [if_neg]
        rintro ⟨h1, h2⟩
        refine hall f.2.1 ?_
        have hfeq : (u, f.2.1, v) = f := by rw [← h1, ← h2]
        rw [hfeq]
        exact List.mem_cons_self f rest
    · simp only [oor]
      constructor
      · intro hc
        cases hc
      · intro hall
        exfalso
        have hall' : ∀ r, (u, r, v) ∉ rest :=
          fun r hr => hall r (List.mem_cons_of_mem _ hr)
        rw [ih.mpr hall'] at h
        cases h

theorem succRel_addFacts_empty (fs : List Fact) (u v : String) :
    succRel (addFacts KnowledgeGraph.empty fs) u v = lastRel fs u v := by
  rw [succRel_addFacts]
  rcases lastRel fs u v with _ | r' <;>
    simp [oor, succRel, KnowledgeGraph.empty, lookupA]

theorem query_fact_not_node {g : KnowledgeGraph} {s : String}
    (hs : s ∉ g.nodes) (r : String) : query_fact g s r = [] := by
  unfold query_fact
  rw [if_neg (fun hc => hs (List.elem_iff.mp hc))]

theorem query_fact_reverse_not_node {g : KnowledgeGraph} {o : String}
    (ho : o ∉ g.nodes) (r : String) : query_fact_reverse g o r = [] := by
  unfold query_fact_reverse
  rw [if_neg (fun hc => ho (List.elem_iff.mp hc))]

theorem lookupA_succ_eq_none {g : KnowledgeGraph} (hwf : WF g) {s : String}
    (hs : s ∉ g.nodes) : lookupA g.succ s = none := by
  rw [lookupA_eq_none_iff]
  intro hk
  obtain ⟨p, hp, hps⟩ := List.exists_of_mem_map hk
  exact hs (hps ▸ hwf.succ_sub p hp)

theorem lookupA_pred_eq_none {g : KnowledgeGraph} (hwf : WF g) {o : String}
    (ho : o ∉ g.nodes) : lookupA g.pred o = none := by
  rw [lookupA_eq_none_iff]
  intro hk
  obtain ⟨p, hp, hpo⟩ := List.exists_of_mem_map hk
  exact ho (hpo ▸ hwf.pred_sub p hp)

/-- A forward query contains `o` exactly when the outgoing index stores
the edge `s → o` with relation `r`. -/
theorem mem_query_fact_iff {g : KnowledgeGraph} (hwf : WF g) (s r o : String) :
    o ∈ query_fact g s r ↔ succRel g s o = some r := by
  unfold query_fact
  by_cases hs : s ∈ g.nodes
  · rw [if_pos (List.elem_iff.mpr hs)]
    rcases hadj : lookupA g.succ s with _ | adj
    · simp [succRel, hadj, lookupA]
    · simp only [succRel, hadj, Option.getD_some]
      have hnd : (adj.map Prod.fst).Nodup := hwf.succ_adj _ (mem_of_lookupA hadj)
      constructor
      · intro hmem
        rw [List.mem_map] at hmem
        obtain ⟨p, hp, hpo⟩ := hmem
        rw [List.mem_filter] at hp
        have hpr : p.2 = r := by simpa using hp.2
        have hpeq : p = (o, r) := by
          rw [← hpo, ← hpr]
        exact (lookupA_eq_some_iff_mem hnd).mpr (hpeq ▸ hp.1)
      · intro hlook
        have hmem : (o, r) ∈ adj := mem_of_lookupA hlook
        rw [List.mem_map]
        exact ⟨(o, r), List.mem_filter.mpr ⟨hmem, by simp⟩, rfl⟩
  · rw [if_neg (fun hc => hs (List.elem_iff.mp hc))]
    rw [succRel, lookupA_succ_eq_none hwf hs]
    simp [lookupA]

/-- A reverse query contains `s` exactly when the incoming index stores
the edge `s → o` with relation `r`. -/
theorem mem_query_fact_reverse_iff {g : KnowledgeGraph} (hwf : WF g)
    (o r s : String) :
    s ∈ query_fact_reverse g o r ↔ predRel g s o = some r := by
  unfold query_fact_reverse
  by_cases ho : o ∈ g.nodes
  · rw [if_pos (List.elem_iff.mpr ho)]
    rcases hadj : lookupA g.pred o with _ | adj
    · simp [predRel, hadj, lookupA]
    · simp only [predRel, hadj, Option.getD_some]
      have hnd : (adj.map Prod.fst).Nodup := hwf.pred_adj _ (mem_of_lookupA hadj)
      constructor
      · intro hmem
        rw [List.mem_map] at hmem
        obtain ⟨p, hp, hps⟩ := hmem
        rw [List.mem_filter] at hp
        have hpr : p.2 = r := by simpa using hp.2
        have hpeq : p = (s, r) := by
          rw [← hps, ← hpr]
        exact (lookupA_eq_some_iff_mem hnd).mpr (hpeq ▸ hp.1)
      · intro hlook
        have hmem : (s, r) ∈ adj := mem_of_lookupA hlook
        rw [List.mem_map]
        exact ⟨(s, r), List.mem_filter.mpr ⟨hmem, by simp⟩, rfl⟩
  · rw [if_neg (fun hc => ho (List.elem_iff.mp hc))]
    rw [predRel, lookupA_pred_eq_none hwf ho]
    simp [lookupA]

/-- Main characterization of forward queries against the fact sequence:
`QueryForward(s, r)` contains `o` exactly when the *most recent* fact added
with subject `s` and object `o` carries relation `r`. -/
theorem query_fact_char (fs : List Fact) (s r o : String) :
    o ∈ query_fact (addFacts KnowledgeGraph.empty fs) s r ↔
      lastRel fs s o = some r := by
  rw [mem_query_fact_iff (wf_addFacts wf_empty fs), succRel_addFacts_empty]

/-- Main characterization of reverse queries against the fact sequence. -/
theorem query_fact_reverse_char (fs : List Fact) (o r s : String) :
    s ∈ query_fact_reverse (addFacts KnowledgeGraph.empty fs) o r ↔
      lastRel fs s o = some r := by
  rw [mem_query_fact_reverse_iff (wf_addFacts wf_empty fs),
    ← (wf_addFacts wf_empty fs).mirror s o, succRel_addFacts_empty]

/-- Forward query results never repeat an object. -/
theorem query_fact_nodup {g : KnowledgeGraph} (hwf : WF g) (s r : String) :
    (query_fact g s r).Nodup := by
  unfold query_fact
  split
  · rcases hadj : lookupA g.succ s with _ | adj
    · simp [lookupA]
    · simp only [Option.getD_some]
      have hnd : (adj.map Prod.fst).Nodup := hwf.succ_adj _ (mem_of_lookupA hadj)
      exact hnd.sublist ((adj.filter_sublist).map Prod.fst)
  · exact List.nodup_nil

theorem oor_none_right (a : Option String) : oor a none = a := by
  rcases a with _ | r <;> rfl

theorem oor_assoc (a b c : Option String) :
    oor (oor a b) c = oor a (oor b c) := by
  rcases a with _ | r <;> rfl

theorem lastRel_append (l1 l2 : List Fact) (u v : String) :
    lastRel (l1 ++ l2) u v = oor (lastRel l2 u v) (lastRel l1 u v) := by
  induction l1 with
  | nil => rw [List.nil_append, lastRel, oor_none_right]
  | cons f l1' ih =>
    rw [List.cons_append, lastRel, ih, lastRel, oor_assoc]

theorem lastRel_exists_iff (fs : List Fact) (u v : String) :
    (∃ r, lastRel fs u v = some r) ↔ ∃ r, (u, r, v) ∈ fs := by
  constructor
  · rintro ⟨r, hr⟩
    by_contra hnone
    push_neg at hnone
    rw [(lastRel_eq_none_iff fs u v).mpr hnone] at hr
    cases hr
  · rintro ⟨r, hr⟩
    rcases h : lastRel fs u v with _ | r'
    · exact absurd hr ((lastRel_eq_none_iff fs u v).mp h r)
    · exact ⟨r', rfl⟩

theorem length_display_eq_length_edgePairs (g : KnowledgeGraph) :
    (display_facts g).length = (edgePairs g).length := by
  unfold display_facts edgePairs
  generalize g.succ = l
  induction l with
  | nil => rfl
  | cons p rest ih =>
    simp only [List.flatMap_cons, List.length_append, List.length_map, ih]

theorem edgePairs_nodup {g : KnowledgeGraph} (hwf : WF g) :
    (edgePairs g).Nodup := by
  rw [edgePairs, List.nodup_flatMap]
  constructor
  · intro p hp
    have h1 : (p.2.map Prod.fst).Nodup := hwf.succ_adj p hp
    have h2 : p.2.map (fun e => (p.1, e.1)) =
        (p.2.map Prod.fst).map (fun x => (p.1, x)) := by
      rw [List.map_map]
      rfl
    rw [h2]
    exact h1.map (fun a b h => congrArg Prod.snd h)
  · have hkeys : List.Pairwise (fun a b : String × List (String × String) =>
        a.1 ≠ b.1) g.succ := by
      have := hwf.succ_keys
      rw [List.Nodup, List.pairwise_map] at this
      exact this
    refine hkeys.imp ?_
    intro p q hpq x hxp hxq
    rw [List.mem_map] at hxp hxq
    obtain ⟨e1, _, he1⟩ := hxp
    obtain ⟨e2, _, he2⟩ := hxq
    exact hpq ((congrArg Prod.fst he1).trans (congrArg Prod.fst he2).symm)

theorem mem_edgePairs_iff {g : KnowledgeGraph} (hwf : WF g) (u v : String) :
    (u, v) ∈ edgePairs g ↔ ∃ r, succRel g u v = some r := by
  rw [edgePairs, List.mem_flatMap]
  constructor
  · rintro ⟨p, hp, hmem⟩
    rw [List.mem_map] at hmem
    obtain ⟨e, he, heq⟩ := hmem
    have h1 : p.1 = u := congrArg Prod.fst heq
    have h2 : e.1 = v := congrArg Prod.snd heq
    have hlk : lookupA g.succ u = some p.2 := by
      apply (lookupA_eq_some_iff_mem hwf.succ_keys).mpr
      rw [← h1]
      exact hp
    refine ⟨e.2, ?_⟩
    rw [succRel, hlk, Option.getD_some]
    apply (lookupA_eq_some_iff_mem (hwf.succ_adj p hp)).mpr
    rw [← h2]
    exact he
  · rintro ⟨r, hr⟩
    rcases hadj : lookupA g.succ u with _ | adj
    · rw [succRel, hadj] at hr
      cases hr
    · rw [succRel, hadj, Option.getD_some] at hr
      exact ⟨(u, adj), mem_of_lookupA hadj,
        List.mem_map.mpr ⟨(v, r), mem_of_lookupA hr, rfl⟩⟩

theorem mem_map_pair_iff (fs : List Fact) (u v : String) :
    (u, v) ∈ fs.map (fun f => (f.1, f.2.2)) ↔ ∃ r, (u, r, v) ∈ fs := by
  rw [List.mem_map]
  constructor
  · rintro ⟨f, hf, heq⟩
    have h1 : f.1 = u := congrArg Prod.fst heq
    have h2 : f.2.2 = v := congrArg Prod.snd heq
    refine ⟨f.2.1, ?_⟩
    have : (u, f.2.1, v) = f := by rw [← h1, ← h2]
    rw [this]
    exact hf
  · rintro ⟨r, hr⟩
    exact ⟨(u, r, v), hr, rfl⟩

/-! ### The claims -/

/-- C1 as stated is false: the fact ("A","p","B") is added, but after the
later call AddFact("A","q","B") — same subject and object, different
relation — QueryForward("A","p") no longer contains "B", because
`DiGraph.add_edge` overwrote the relation attribute of the edge A → B. -/
theorem C1_counterexample :
    ("A", "p", "B") ∈ ([("A", "p", "B"), ("A", "q", "B")] : List Fact) ∧
    "B" ∉ query_fact
      (addFacts KnowledgeGraph.empty [("A", "p", "B"), ("A", "q", "B")])
      "A" "p" := by
  decide

/-- C1 (amended): for every fact (s, r, o) added via AddFact such that no
later AddFact call in the sequence has the same subject and object,
QueryForward(s, r) contains o and QueryReverse(o, r) contains s. -/
theorem C1_last_fact_queryable (l1 l2 : List Fact) (s r o : String)
    (hno : ∀ r', (s, r', o) ∉ l2) :
    o ∈ query_fact (addFacts KnowledgeGraph.empty (l1 ++ (s, r, o) :: l2)) s r ∧
    s ∈ query_fact_reverse
      (addFacts KnowledgeGraph.empty (l1 ++ (s, r, o) :: l2)) o r := by
  have hX : lastRel ((s, r, o) :: l2) s o = some r := by
    rw [lastRel, (lastRel_eq_none_iff l2 s o).mpr hno]
    simp [oor]
  have hlast : lastRel (l1 ++ (s, r, o) :: l2) s o = some r := by
    rw [lastRel_append, hX]
    rfl
  exact ⟨(query_fact_char _ _ _ _).mpr hlast,
    (query_fact_reverse_char _ _ _ _).mpr hlast⟩

/-- Witness for C1 (amended) at a concrete input. -/
theorem C1_witness :
    (∀ r', ("A", r', "B") ∉ ([] : List Fact)) ∧
    ("B" ∈ query_fact
        (addFacts KnowledgeGraph.empty ([] ++ ("A", "p", "B") :: [])) "A" "p" ∧
     "A" ∈ query_fact_reverse
        (addFacts KnowledgeGraph.empty ([] ++ ("A", "p", "B") :: [])) "B" "p") :=
  ⟨fun r' => by simp,
   C1_last_fact_queryable [] [] "A" "p" "B" (fun r' => by simp)⟩

/-- C2 as stated is false: after adding ("A","p","B") and ("A","q","B"),
QueryForward("A","p") does not contain "B" — the second AddFact overwrote
the relation of the single stored edge A → B, so the two facts do not
coexist (`DiGraph` is a simple graph, not a multigraph). -/
theorem C2_counterexample :
    ¬ ("B" ∈ query_fact
          (addFacts KnowledgeGraph.empty [("A", "p", "B"), ("A", "q", "B")])
          "A" "p" ∧
       "B" ∈ query_fact
          (addFacts KnowledgeGraph.empty [("A", "p", "B"), ("A", "q", "B")])
          "A" "q") := by
  decide

/-- C2 (amended): the store keeps at most one relation per (subject,
object) pair; adding (s, r1, o) then (s, r2, o) with r1 ≠ r2 leaves only
the later relation: QueryForward(s, r1) is empty and QueryForward(s, r2)
contains o. -/
theorem C2_relation_overwrite (s o r1 r2 : String) (h : r1 ≠ r2) :
    query_fact (addFacts KnowledgeGraph.empty [(s, r1, o), (s, r2, o)]) s r1
      = [] ∧
    o ∈ query_fact (addFacts KnowledgeGraph.empty [(s, r1, o), (s, r2, o)])
      s r2 := by
  constructor
  · rw [List.eq_nil_iff_forall_not_mem]
    intro x hx
    rw [query_fact_char] at hx
    by_cases hox : o = x
    · subst hox
      have hc : lastRel [(s, r1, o), (s, r2, o)] s o = some r2 := by
        simp [lastRel, oor]
      rw [hc] at hx
      exact h (Option.some.inj hx).symm
    · have hc : lastRel [(s, r1, o), (s, r2, o)] s x = none := by
        simp [lastRel, oor, hox]
      rw [hc] at hx
      cases hx
  · rw [query_fact_char]
    simp [lastRel, oor]

/-- Witness for C2 (amended) at a concrete input. -/
theorem C2_witness :
    ("p" : String) ≠ "q" ∧
    (query_fact (addFacts KnowledgeGraph.empty [("A", "p", "B"), ("A", "q", "B")])
        "A" "p" = [] ∧
     "B" ∈ query_fact
        (addFacts KnowledgeGraph.empty [("A", "p", "B"), ("A", "q", "B")])
        "A" "q") :=
  ⟨by decide, C2_relation_overwrite "A" "B" "p" "q" (by decide)⟩

/-- C3 as stated is false: adding the same triple ("A","r","B") twice
yields a single entry in the enumeration (the second AddFact rewrote the
existing edge in place), so ListFacts has length 1, not 2. -/
theorem C3_counterexample :
    ¬ ((display_facts
          (addFacts KnowledgeGraph.empty [("A", "r", "B"), ("A", "r", "B")])).length
        = ([("A", "r", "B"), ("A", "r", "B")] : List Fact).length) := by
  decide

/-- C3 (amended): the length of ListFacts equals the number of *distinct
(subject, object) pairs* among the AddFact calls — duplicate triples, and
more generally repeated (subject, object) pairs under any relations,
collapse into a single stored edge and a single enumeration entry. -/
theorem C3_listFacts_length_distinct_pairs (fs : List Fact) :
    (display_facts (addFacts KnowledgeGraph.empty fs)).length =
      ((fs.map (fun f => (f.1, f.2.2))).dedup).length := by
  have hwf := wf_addFacts wf_empty fs
  rw [length_display_eq_length_edgePairs]
  have hnd1 := edgePairs_nodup hwf
  have hnd2 := List.nodup_dedup (fs.map (fun f => (f.1, f.2.2)))
  rw [← List.toFinset_card_of_nodup hnd1, ← List.toFinset_card_of_nodup hnd2]
  congr 1
  ext x
  obtain ⟨u, v⟩ := x
  rw [List.mem_toFinset, List.mem_toFinset, List.mem_dedup,
    mem_edgePairs_iff hwf, mem_map_pair_iff]
  simp only [succRel_addFacts_empty]
  exact lastRel_exists_iff fs u v

/-- C4 as stated is false: after adding ("A","r","B") twice, the multiset
of objects o with ("A","r",o) added is ["B","B"], but QueryForward("A","r")
returns ["B"] — not a permutation of the spec's multiset. -/
theorem C4_counterexample :
    ¬ List.Perm
        (query_fact
          (addFacts KnowledgeGraph.empty [("A", "r", "B"), ("A", "r", "B")])
          "A" "r")
        (specForward [("A", "r", "B"), ("A", "r", "B")] "A" "r") := by
  decide

/-- C4 (amended): QueryForward(s, r) returns each object at most once, and
it contains o exactly when the *most recent* fact added with subject s and
object o carried relation r; objects only added under other relations on
the same subject do not appear. -/
theorem C4_queryForward_exact (fs : List Fact) (s r : String) :
    (query_fact (addFacts KnowledgeGraph.empty fs) s r).Nodup ∧
    ∀ o, o ∈ query_fact (addFacts KnowledgeGraph.empty fs) s r ↔
      lastRel fs s o = some r :=
  ⟨query_fact_nodup (wf_addFacts wf_empty fs) s r,
   fun o => query_fact_char fs s r o⟩

/-- C5: querying a node that never occurs as subject or object of any
added fact returns the empty list from both QueryForward and QueryReverse
(the embedding is a total function, so no error is possible). -/
theorem C5_unknown_node_empty (fs : List Fact) (n r : String)
    (h : ∀ f ∈ fs, f.1 ≠ n ∧ f.2.2 ≠ n) :
    query_fact (addFacts KnowledgeGraph.empty fs) n r = [] ∧
    query_fact_reverse (addFacts KnowledgeGraph.empty fs) n r = [] := by
  have hn : n ∉ (addFacts KnowledgeGraph.empty fs).nodes := by
    rw [mem_nodes_addFacts]
    rintro (hg | ⟨f, hf, hx⟩)
    · simp [KnowledgeGraph.empty] at hg
    · rcases hx with h1 | h2
      · exact (h f hf).1 h1
      · exact (h f hf).2 h2
  exact ⟨query_fact_not_node hn r, query_fact_reverse_not_node hn r⟩

/-- Witness for C5 at a concrete input. -/
theorem C5_witness :
    (∀ f ∈ ([("A", "p", "B")] : List Fact), f.1 ≠ "Z" ∧ f.2.2 ≠ "Z") ∧
    (query_fact (addFacts KnowledgeGraph.empty [("A", "p", "B")]) "Z" "q" = [] ∧
     query_fact_reverse (addFacts KnowledgeGraph.empty [("A", "p", "B")]) "Z" "q"
        = []) :=
  ⟨by decide, C5_unknown_node_empty [("A", "p", "B")] "Z" "q" (by decide)⟩

/-- C6: the hypertension scenario — after adding
("Hypertension","treated_by","ACE Inhibitor") then
("Hypertension","treated_by","Diuretic"), the forward query yields both
objects in insertion order and the reverse query on "ACE Inhibitor" yields
["Hypertension"]. -/
theorem C6_scenario :
    query_fact
      (addFacts KnowledgeGraph.empty
        [("Hypertension", "treated_by", "ACE Inhibitor"),
         ("Hypertension", "treated_by", "Diuretic")])
      "Hypertension" "treated_by" = ["ACE Inhibitor", "Diuretic"] ∧
    query_fact_reverse
      (addFacts KnowledgeGraph.empty
        [("Hypertension", "treated_by", "ACE Inhibitor"),
         ("Hypertension", "treated_by", "Diuretic")])
      "ACE Inhibitor" "treated_by" = ["Hypertension"] := by
  decide

/-- C7: a forward request carrying a subject but no relation field is
answered with the forward missing-field error response; the adapter is a
total function, so it cannot crash or raise. -/
theorem C7_missing_relation_error (q : Query) (kg : KnowledgeGraph)
    (s : String) (hty : q.queryType = some "retrieve_fact")
    (hsub : q.subject = some s) (hrel : q.relation = none) :
    process_query q kg =
      QueryResponse.error
        "For a forward query, 'subject' and 'relation' are required." := by
  have hcond : (isFalsy q.subject || isFalsy q.relation) = true := by
    rw [hrel]
    simp [isFalsy]
  unfold process_query
  rw [if_pos hty, if_pos hcond]

/-- Witness for C7 at a concrete request. -/
theorem C7_witness :
    process_query ⟨some "retrieve_fact", some "Hypertension", none, none⟩
        KnowledgeGraph.empty =
      QueryResponse.error
        "For a forward query, 'subject' and 'relation' are required." :=
  C7_missing_relation_error _ _ "Hypertension" rfl rfl rfl

/-- C8: a request whose queryType is neither "retrieve_fact" nor
"retrieve_fact_reverse" (including an absent queryType) is answered with
exactly the unsupported-queryType error response. -/
theorem C8_unsupported_queryType (q : Query) (kg : KnowledgeGraph)
    (h1 : q.queryType ≠ some "retrieve_fact")
    (h2 : q.queryType ≠ some "retrieve_fact_reverse") :
    process_query q kg =
      QueryResponse.error "Unsupported queryType provided." := by
  unfold process_query
  rw [if_neg h1, if_neg h2]

/-- Witness for C8 at a concrete request. -/
theorem C8_witness :
    process_query ⟨some "list_facts", some "A", none, some "r"⟩
        KnowledgeGraph.empty =
      QueryResponse.error "Unsupported queryType provided." :=
  C8_unsupported_queryType _ _ (by decide) (by decide)

/-- C9 (implicit): the adapter's `if not subject or not relation` tests use
Python truthiness, so an empty-string value of a required field is treated
like an absent field: a forward request with subject or relation equal to
"" (and a reverse request with object or relation equal to "") gets the
missing-field error, never a query result — the empty string cannot be
queried through the adapter. -/
theorem C9_empty_field_missing (q : Query) (kg : KnowledgeGraph) :
    (q.queryType = some "retrieve_fact" →
      (q.subject = some "" ∨ q.relation = some "") →
      process_query q kg =
        QueryResponse.error
          "For a forward query, 'subject' and 'relation' are required.") ∧
    (q.queryType = some "retrieve_fact_reverse" →
      (q.object = some "" ∨ q.relation = some "") →
      process_query q kg =
        QueryResponse.error
          "For a reverse query, 'object' and 'relation' are required.") := by
  constructor
  · intro hty hor
    have hcond : (isFalsy q.subject || isFalsy q.relation) = true := by
      rcases hor with h | h <;> rw [h] <;> simp [isFalsy]
    unfold process_query
    rw [if_pos hty, if_pos hcond]
  · intro hty hor
    have hty1 : q.queryType ≠ some "retrieve_fact" := by
      rw [hty]
      decide
    have hcond : (isFalsy q.object || isFalsy q.relation) = true := by
      rcases hor with h | h <;> rw [h] <;> simp [isFalsy]
    unfold process_query
    rw [if_neg hty1, if_pos hty, if_pos hcond]

/-- Witness for C9 at concrete requests (empty subject forward, empty
object reverse). -/
theorem C9_witness :
    process_query ⟨some "retrieve_fact", some "", none, some "r"⟩
        KnowledgeGraph.empty =
      QueryResponse.error
        "For a forward query, 'subject' and 'relation' are required." ∧
    process_query ⟨some "retrieve_fact_reverse", none, some "", some "r"⟩
        KnowledgeGraph.empty =
      QueryResponse.error
        "For a reverse query, 'object' and 'relation' are required." :=
  ⟨(C9_empty_field_missing ⟨some "retrieve_fact", some "", none, some "r"⟩
      KnowledgeGraph.empty).1 rfl (Or.inl rfl),
   (C9_empty_field_missing ⟨some "retrieve_fact_reverse", none, some "", some "r"⟩
      KnowledgeGraph.empty).2 rfl (Or.inl rfl)⟩

/-- C10 (implicit): QueryForward, QueryReverse and ListFacts are
read-only — their state-passing embeddings return the store unchanged
(in particular querying an unknown node creates no node), and their
results agree with the pure query functions. -/
theorem C10_queries_readonly (g : KnowledgeGraph) (a rel : String) :
    (query_fact_run g a rel).2 = g ∧
    (query_fact_run g a rel).1 = query_fact g a rel ∧
    (query_fact_reverse_run g a rel).2 = g ∧
    (query_fact_reverse_run g a rel).1 = query_fact_reverse g a rel ∧
    (display_facts_run g).2 = g ∧
    (display_facts_run g).1 = display_facts g := by
  refine ⟨?_, ?_, ?_, ?_, rfl, rfl⟩
  · unfold query_fact_run
    split <;> rfl
  · unfold query_fact_run query_fact
    split <;> rfl
  · unfold query_fact_reverse_run
    split <;> rfl
  · unfold query_fact_reverse_run query_fact_reverse
    split <;> rfl

end RunGraph
